import Mathlib

/-!
Shallow embedding of the move-evaluation core of game_HappyHex
(`src/python/hex.py` and `src/python/algos.py`).

Coordinates are embedded with the two integer bases `x`, `y` of the source's
`Hex` class; line indices are floor divisions by 3, matching Python's `//`.
Mutating Python methods become functions returning the updated value, and a
raised `ValueError` becomes an `Option String` / `Except String` component.
-/

/-- A hexagonal coordinate: the two stored bases of `Hex` (`_x`, `_y`). -/
structure Hex where
  x : Int
  y : Int
deriving DecidableEq, Repr

namespace Hex

/-- `Hex.get_line_i`: `(2 * self._y + self._x) // 3` (Python floor division). -/
def lineI (h : Hex) : Int := (2 * h.y + h.x).fdiv 3

/-- `Hex.get_line_j`: `(self._x - self._y) // 3`. -/
def lineJ (h : Hex) : Int := (h.x - h.y).fdiv 3

/-- `Hex.get_line_k`: `(2 * self._x + self._y) // 3`. -/
def lineK (h : Hex) : Int := (2 * h.x + h.y).fdiv 3

/-- `Hex.shift_i`: new Hex at `(x + 2u, y - u)`. -/
def shiftI (h : Hex) (u : Int) : Hex := ⟨h.x + 2 * u, h.y - u⟩

/-- `Hex.shift_j`: new Hex at `(x + u, y + u)`. -/
def shiftJ (h : Hex) (u : Int) : Hex := ⟨h.x + u, h.y + u⟩

/-- `Hex.shift_k`: new Hex at `(x - u, y + 2u)`. -/
def shiftK (h : Hex) (u : Int) : Hex := ⟨h.x - u, h.y + 2 * u⟩

/-- `Hex.hex(i, k)` factory: `Hex().shift_i(k).shift_k(i)`. -/
def hexAt (i k : Int) : Hex := ((Hex.mk 0 0).shiftI k).shiftK i

/-- `Hex.in_range(radius)`. -/
def inRange (h : Hex) (radius : Int) : Bool :=
  decide (0 ≤ h.lineI) && decide (h.lineI < radius * 2 - 1) &&
  decide (-radius < h.lineJ) && decide (h.lineJ < radius) &&
  decide (0 ≤ h.lineK) && decide (h.lineK < radius * 2 - 1)

/-- `Hex.__add__` in the branch where the other operand is exactly a `Hex`:
raw coordinate sum. -/
def add (a b : Hex) : Hex := ⟨a.x + b.x, a.y + b.y⟩

/-- `Hex.__this__`: rebuild the coordinate from its line indices through the
factory. -/
def canon (h : Hex) : Hex := hexAt h.lineI h.lineK

end Hex

/-- A `Block`: a `Hex` coordinate plus a color index and an occupancy state. -/
structure Block where
  x : Int
  y : Int
  color : Int
  state : Bool
deriving DecidableEq, Repr

instance : Inhabited Block := ⟨⟨0, 0, 0, false⟩⟩

namespace Block

/-- The coordinate part of a block (a `Block` is-a `Hex` in the source). -/
def toHex (b : Block) : Hex := ⟨b.x, b.y⟩

def lineI (b : Block) : Int := b.toHex.lineI
def lineJ (b : Block) : Int := b.toHex.lineJ
def lineK (b : Block) : Int := b.toHex.lineK

/-- `Block.block(i, k, color)`: `Block(Hex(), color).shift_i(k).shift_k(i)`,
which lands on raw coordinates `(2k - i, 2i - k)` with state `False`. -/
def atLine (i k color : Int) : Block := ⟨2 * k - i, 2 * i - k, color, false⟩

/-- `Block.__add__` with a plain `Hex` operand: a new block at
`self.__this__() + other` keeping this block's color and state. -/
def addHex (b : Block) (h : Hex) : Block :=
  let s := (Hex.canon b.toHex).add h
  ⟨s.x, s.y, b.color, b.state⟩

/-- `Block.__copy__`: `Block(self.__this__(), color, state)` — the coordinate
is canonicalized through line indices. -/
def copy (b : Block) : Block :=
  let s := Hex.canon b.toHex
  ⟨s.x, s.y, b.color, b.state⟩

/-- `Hex.in_range` applied to the block's coordinate. -/
def inRange (b : Block) (radius : Int) : Bool := b.toHex.inRange radius

end Block

/-- `Hex.__add__` in the branch where the other operand is a proper subclass
(`Block`): the source delegates to `other + self`. -/
def Hex.addBlock (h : Hex) (b : Block) : Block := b.addHex h

/-- C9 helper: the raw vector sum of a block's and a hex's coordinates,
keeping the block's color and state. -/
def Block.rawSum (b : Block) (h : Hex) : Block := ⟨b.x + h.x, b.y + h.y, b.color, b.state⟩

/-- A `Piece`: a fixed-capacity array of optional blocks plus the piece color. -/
structure Piece where
  blocks : List (Option Block)
  color : Int
deriving DecidableEq, Repr

instance : Inhabited Piece := ⟨⟨[], 0⟩⟩

namespace Piece

/-- `Piece.__init__(length, color)`: capacity `max length 1`, all slots empty. -/
def ofCapacity (length : Nat) (color : Int) : Piece :=
  ⟨List.replicate (max length 1) none, color⟩

/-- Helper for `Piece.add_hex`: put a block into the first empty slot. -/
def placeFirst : List (Option Block) → Block → List (Option Block) × Bool
  | [], _ => ([], false)
  | none :: rest, blk => (some blk :: rest, true)
  | some b :: rest, blk =>
    let r := placeFirst rest blk
    (some b :: r.1, r.2)

/-- `Piece.add_hex` with a `Hex` argument: create `Block.block(i, k, color)`,
stamp the piece color and mark occupied, and store it in the first empty slot.
Returns the updated piece and whether insertion succeeded. -/
def addHex (p : Piece) (h : Hex) : Piece × Bool :=
  let blk : Block := Block.atLine h.lineI h.lineK p.color
  let blk := { blk with color := p.color, state := true }
  let r := placeFirst p.blocks blk
  (⟨r.1, p.color⟩, r.2)

/-- The comparison of `Piece._sort`'s inner while loop: the scanned slot is
empty or strictly greater than the key in (lineI, lineK) order. -/
def slotGT (s : Option Block) (key : Block) : Bool :=
  match s with
  | none => true
  | some b =>
    decide (key.lineI < b.lineI) ||
    (decide (b.lineI = key.lineI) && decide (key.lineK < b.lineK))

/-- One insertion of `Piece._sort`: shift the maximal suffix of the processed
prefix consisting of greater-or-empty slots right and put the key before it. -/
def insertKey (pre : List (Option Block)) (key : Block) : List (Option Block) :=
  let rpre := pre.reverse
  ((rpre.dropWhile (fun s => slotGT s key)).reverse) ++
    some key :: (rpre.takeWhile (fun s => slotGT s key)).reverse

/-- One outer-loop step of `Piece._sort` at index `i` (an empty key slot is
left in place). -/
def sortStep (l : List (Option Block)) (i : Nat) : List (Option Block) :=
  match l.getD i none with
  | some key => insertKey (l.take i) key ++ l.drop (i + 1)
  | none => l

/-- `Piece._sort`: insertion sort by (lineI, lineK) with empty slots treated
as greater than every key. -/
def sortBlocks (p : Piece) : List (Option Block) :=
  (List.range' 1 (p.blocks.length - 1)).foldl sortStep p.blocks

/-- `Piece.blocks()`: sort, then replace empty slots by dummy blocks at the
origin carrying the piece color. -/
def blocksList (p : Piece) : List Block :=
  p.sortBlocks.map (fun s => s.getD ⟨0, 0, p.color, false⟩)

/-- The per-slot test of `Piece.get_block`: a stored block with the same line
coordinates as the requested coordinate. -/
def matchCoord (h : Hex) (s : Option Block) : Option Block :=
  match s with
  | some b =>
    if b.lineI = h.lineI ∧ b.lineK = h.lineK then some b else none
  | none => none

/-- `Piece.get_block` with a `Hex` argument: first stored block with the same
line coordinates. -/
def getBlockAt (p : Piece) (h : Hex) : Option Block :=
  p.blocks.findSome? (matchCoord h)

/-- `Piece.in_range`: whether a block exists at the coordinate. -/
def inRangeAt (p : Piece) (h : Hex) : Bool := (p.getBlockAt h).isSome

/-- `Piece.get_state`: state of the block at the coordinate, `False` if none. -/
def getState (p : Piece) (h : Hex) : Bool :=
  match p.getBlockAt h with
  | some b => b.state
  | none => false

/-- `Piece.to_byte`: 7-bit mask over the fixed neighborhood, MSB first. -/
def toByte (p : Piece) : Nat :=
  let d0 := if p.getState (Hex.hexAt (-1) (-1)) then 1 else 0
  let d1 := d0 * 2 + (if p.getState (Hex.hexAt (-1) 0) then 1 else 0)
  let d2 := d1 * 2 + (if p.getState (Hex.hexAt 0 (-1)) then 1 else 0)
  let d3 := d2 * 2 + (if p.getState (Hex.hexAt 0 0) then 1 else 0)
  let d4 := d3 * 2 + (if p.getState (Hex.hexAt 0 1) then 1 else 0)
  let d5 := d4 * 2 + (if p.getState (Hex.hexAt 1 0) then 1 else 0)
  let d6 := d5 * 2 + (if p.getState (Hex.hexAt 1 1) then 1 else 0)
  d6 % 128

/-- Structural helper for `popBits`; the fuel only needs to exceed the bit
length, and `popBits` always passes enough. -/
def popBitsAux : Nat → Nat → Nat
  | 0, _ => 0
  | fuel + 1, n => if n = 0 then 0 else popBitsAux fuel (n / 2) + n % 2

/-- Number of set bits, as Python's `bin(data).count("1")` for nonnegative
data. -/
def popBits (n : Nat) : Nat := popBitsAux n n

/-- One conditional `piece.add_hex(...)` statement of `piece_from_byte`. -/
def addBit (cond : Bool) (h : Hex) (p : Piece) : Piece :=
  if cond then (p.addHex h).1 else p

/-- The construction loop of `piece_from_byte` for positive data `n`:
allocate a piece of capacity `popcount(n)` and add the blocks of the 7
tested bit positions, MSB first. -/
def buildFromBits (n : Nat) (color : Int) : Piece :=
  ofCapacity (popBits n) color
  |> addBit ((n >>> 6) &&& 1 == 1) (Hex.hexAt (-1) (-1))
  |> addBit ((n >>> 5) &&& 1 == 1) (Hex.hexAt (-1) 0)
  |> addBit ((n >>> 4) &&& 1 == 1) (Hex.hexAt 0 (-1))
  |> addBit ((n >>> 3) &&& 1 == 1) (Hex.hexAt 0 0)
  |> addBit ((n >>> 2) &&& 1 == 1) (Hex.hexAt 0 1)
  |> addBit ((n >>> 1) &&& 1 == 1) (Hex.hexAt 1 0)
  |> addBit (n &&& 1 == 1) (Hex.hexAt 1 1)

/-- `Piece.piece_from_byte(data, color)`: reject nonpositive data, then build
the piece from the 7-bit mask. -/
def fromByte (data : Int) (color : Int) : Except String Piece :=
  if data < 0 then .error "Data must have empty most significant bit"
  else if data = 0 then .error "Data must contain at least one block"
  else .ok (buildFromBits data.toNat color)

end Piece


/-- The color-independent content of a block: coordinate and occupancy. -/
def Block.sh (b : Block) : Int × Int × Bool := (b.x, b.y, b.state)

/-- `Block.sh` lifted to an optional slot. -/
def shOf (s : Option Block) : Option (Int × Int × Bool) := s.map Block.sh

/-- The board: radius and the sorted array of blocks (`HexEngine`). -/
structure HexEngine where
  radius : Nat
  blocks : List Block
deriving DecidableEq, Repr

/-- An argument for the `HexGrid` parameter of `add`: either concrete grid
implementation of the source. -/
inductive AnyGrid where
  | engine (e : HexEngine)
  | piece (p : Piece)

/-- `Piece.add`: the `HexGrid.add` capability on a `Piece` raises
unconditionally, leaving the piece unchanged.  The returned pair is the
(unchanged) piece and the raised error. -/
def Piece.addGrid (p : Piece) (origin : Hex) (other : AnyGrid) : Piece × Option String :=
  (p, some "Adding Grid to piece prohibited. Please add block by block.")

namespace HexEngine

/-- The body of `HexEngine._search`, structurally recursive on a fuel that
bounds the length of the searched interval (each recursive call shrinks the
interval, so the fuel passed by `search` is never exhausted).
`(start + end) // 2` is Python floor division. -/
def searchAux (blocks : List Block) (i k : Int) : Nat → Int → Int → Int
  | 0, _, _ => -1
  | fuel + 1, start, stop =>
    if start > stop then -1
    else
      let mid := (start + stop).fdiv 2
      let b := blocks.getD mid.toNat default
      if b.lineI = i ∧ b.lineK = k then mid
      else if b.lineI < i ∨ (b.lineI = i ∧ b.lineK < k) then
        searchAux blocks i k fuel (mid + 1) stop
      else
        searchAux blocks i k fuel start (mid - 1)

/-- `HexEngine._search(i, k, start, end)`: recursive binary search over the
sorted block array, comparing first lineI then lineK; `-1` when absent. -/
def search (e : HexEngine) (i k : Int) (start stop : Int) : Int :=
  searchAux e.blocks i k (stop + 1 - start).toNat start stop

/-- `HexEngine.get_block` with a `Hex` argument. -/
def getBlock (e : HexEngine) (h : Hex) : Option Block :=
  if h.inRange e.radius then
    let idx := e.search h.lineI h.lineK 0 ((e.blocks.length : Int) - 1)
    if 0 ≤ idx then some (e.blocks.getD idx.toNat default) else none
  else none

/-- `HexEngine.set_block`. -/
def setBlock (e : HexEngine) (h : Hex) (blk : Block) : HexEngine :=
  if h.inRange e.radius then
    let idx := e.search h.lineI h.lineK 0 ((e.blocks.length : Int) - 1)
    if 0 ≤ idx then { e with blocks := e.blocks.set idx.toNat blk } else e
  else e

/-- `HexEngine.set_state`: flip the state and the default color of the block
found at the coordinate, when its state differs. -/
def setState (e : HexEngine) (h : Hex) (state : Bool) : HexEngine :=
  if h.inRange e.radius then
    let idx := e.search h.lineI h.lineK 0 ((e.blocks.length : Int) - 1)
    if 0 ≤ idx then
      let b := e.blocks.getD idx.toNat default
      if b.state != state then
        let nb : Block := { b with state := state, color := if state then -2 else -1 }
        { e with blocks := e.blocks.set idx.toNat nb }
      else e
    else e
  else e

/-- The block built by the constructor loop body at `(a, b)`:
`Block(Hex())` moved by `move_i(b)` then `move_k(a)`. -/
def boardBlock (a b : Nat) : Block :=
  ⟨2 * (b : Int) - a, 2 * (a : Int) - b, 0, false⟩

/-- `HexEngine.__init__(radius)`: enumerate `(a, b)` over `[0, 2r) × [0, 2r)`
and keep the blocks that pass `Block.in_range(radius)`, in enumeration
order. -/
def init (radius : Nat) : HexEngine :=
  ⟨radius, (List.range (radius * 2)).flatMap (fun a =>
    ((List.range (radius * 2)).filter
        (fun b => (boardBlock a b).inRange radius)).map (boardBlock a))⟩

/-- `HexEngine.reset`: rebuild every block as `Block(block)` — same raw
coordinates, default color 0, state `False`. -/
def reset (e : HexEngine) : HexEngine :=
  ⟨e.radius, e.blocks.map (fun b => ⟨b.x, b.y, 0, false⟩)⟩

/-- The six neighbor line coordinates enumerated by
`HexGrid.count_neighbors`. -/
def neighborCoords (i k : Int) : List (Int × Int) :=
  [(i - 1, k - 1), (i - 1, k), (i, k - 1), (i, k + 1), (i + 1, k), (i + 1, k + 1)]

/-- `HexGrid.count_neighbors` as inherited by `HexEngine`. -/
def countNeighbors (e : HexEngine) (h : Hex) (includeNull : Bool) : Nat :=
  if h.inRange e.radius then
    (neighborCoords h.lineI h.lineK).foldl (fun cnt p =>
      let nh := Hex.hexAt p.1 p.2
      if nh.inRange e.radius then
        match e.getBlock nh with
        | some blk => if blk.state then cnt + 1 else cnt
        | none => cnt
      else if includeNull then cnt + 1 else cnt) 0
  else 0

/-- `HexEngine.check_add`: every occupied cell of the other grid, translated
by the origin, must land on an existing unoccupied block. -/
def checkAdd (e : HexEngine) (origin : Hex) (other : Piece) : Bool :=
  other.blocksList.all (fun blk =>
    if blk.state then
      match e.getBlock (blk.addHex origin).toHex with
      | none => false
      | some target => !target.state
    else true)

/-- `HexEngine.add`: per-cell validate-and-mutate loop; the first failing cell
raises, leaving the mutations of the earlier cells in place.  Returns the
final board and the raised error, if any. -/
def addRun (e : HexEngine) (origin : Hex) (other : Piece) : HexEngine × Option String :=
  other.blocksList.foldl (fun acc blk =>
    match acc.2 with
    | some _ => acc
    | none =>
      if blk.state then
        let placed := blk.addHex origin
        match acc.1.getBlock placed.toHex with
        | none => (acc.1, some "Block out of grid when adding")
        | some target =>
          if target.state then (acc.1, some "Cannot add into existing block")
          else (acc.1.setBlock placed.toHex placed, none)
      else acc) (e, none)

/-- `HexEngine.check_positions`: all block coordinates of the board at which
the other grid could be added. -/
def checkPositions (e : HexEngine) (other : Piece) : List Hex :=
  e.blocks.filterMap (fun b =>
    let h := Hex.canon b.toHex
    if e.checkAdd h other then some h else none)

/-- The `eliminate` list of `HexEngine.eliminate`, as positions into the
block array (the source list holds aliases of the stored blocks): for each
axis and each full line, the indices of that line in board order. -/
def markedIndices (e : HexEngine) : List Nat :=
  let idxs := List.range e.blocks.length
  ((List.range (e.radius * 2 - 1)).flatMap (fun i =>
    let line := idxs.filter (fun n => (e.blocks.getD n default).lineI = (i : Int))
    if line.all (fun n => (e.blocks.getD n default).state) then line else []))
  ++ ((List.range (e.radius * 2 - 1)).flatMap (fun t =>
    let j := (t : Int) + 1 - e.radius
    let line := idxs.filter (fun n => (e.blocks.getD n default).lineJ = j)
    if line.all (fun n => (e.blocks.getD n default).state) then line else []))
  ++ ((List.range (e.radius * 2 - 1)).flatMap (fun k =>
    let line := idxs.filter (fun n => (e.blocks.getD n default).lineK = (k : Int))
    if line.all (fun n => (e.blocks.getD n default).state) then line else []))

/-- `HexEngine.eliminate`: append a copy of each marked block's current value
(aliased mutation: a block already cleared by an earlier marking is copied in
its cleared state), then clear it through `set_state`. -/
def eliminate (e : HexEngine) : HexEngine × List Block :=
  (markedIndices e).foldl (fun acc n =>
    let blk := acc.1.blocks.getD n default
    (acc.1.setState blk.toHex false, acc.2 ++ [blk.copy])) (e, [])

end HexEngine

/-- `HexGrid.count_neighbors` as inherited by `Piece`. -/
def Piece.countNeighbors (p : Piece) (h : Hex) (includeNull : Bool) : Nat :=
  if p.inRangeAt h then
    (HexEngine.neighborCoords h.lineI h.lineK).foldl (fun cnt q =>
      let nh := Hex.hexAt q.1 q.2
      if p.inRangeAt nh then
        match p.getBlockAt nh with
        | some blk => if blk.state then cnt + 1 else cnt
        | none => cnt
      else if includeNull then cnt + 1 else cnt) 0
  else 0

/-- The accumulation loop of `HexEngine.compute_dense_index`:
`(total_possible, total_populated, invalid)` over the occupied cells of the
piece; the flag records the early `return 0.0` on an invalid cell. -/
def HexEngine.denseAccum (e : HexEngine) (origin : Hex) (other : Piece) : Nat × Nat × Bool :=
  other.blocksList.foldl (fun (st : Nat × Nat × Bool) blk =>
    if st.2.2 then st
    else if blk.state then
      let placed := blk.addHex origin
      match e.getBlock placed.toHex with
      | none => (st.1, st.2.1, true)
      | some target =>
        if target.state then (st.1, st.2.1, true)
        else (st.1 + (6 - other.countNeighbors placed.toHex false),
              st.2.1 + e.countNeighbors placed.toHex true, false)
    else st) (0, 0, false)

/-- `HexEngine.compute_dense_index` with real division idealized as rational
division: `populated / possible`, `0` on an invalid cell or when `possible`
is `0`. -/
def HexEngine.computeDenseIndex (e : HexEngine) (origin : Hex) (other : Piece) : ℚ :=
  let st := e.denseAccum origin other
  if st.2.2 then 0
  else if 0 < st.1 then (st.2.1 : ℚ) / (st.1 : ℚ) else 0

/-- `HexEngine._get_pattern`: the 7-bit occupancy pattern of the hexagonal
box around a coordinate, probing `shift_j(-1)`, `shift_i(-1)`, `shift_k(-1)`,
the center, `shift_k(1)`, `shift_i(1)`, `shift_j(1)`, MSB first.  Probing a
coordinate that passes the range test but has no stored block reads the
default (unoccupied) block; on the well-formed boards of the engine this does
not occur. -/
def HexEngine.patternAt (e : HexEngine) (h : Hex) (includeNull : Bool) : Nat :=
  let probe := fun (acc : Nat) (hh : Hex) =>
    if hh.inRange e.radius then
      if ((e.getBlock hh).getD default).state then acc + 1 else acc
    else if includeNull then acc + 1 else acc
  let p0 := probe 0 (h.shiftJ (-1))
  let p1 := probe (p0 * 2) (h.shiftI (-1))
  let p2 := probe (p1 * 2) (h.shiftK (-1))
  let p3 := probe (p2 * 2) h
  let p4 := probe (p3 * 2) (h.shiftK 1)
  let p5 := probe (p4 * 2) (h.shiftI 1)
  probe (p5 * 2) (h.shiftJ 1)

/-- The counting pass of `HexEngine.compute_entropy`: the number of sampled
centers and the 128 pattern frequencies. -/
def HexEngine.entropyStats (e : HexEngine) : Nat × List Nat :=
  e.blocks.foldl (fun (st : Nat × List Nat) b =>
    let c := Hex.canon b.toHex
    if (c.shiftJ 1).inRange ((e.radius : Int) - 1) then
      let pat := e.patternAt c false
      (st.1 + 1, st.2.set pat (st.2.getD pat 0 + 1))
    else st) (0, List.replicate 128 0)

/-- `HexEngine.compute_entropy`: Shannon entropy (bits) of the sampled
pattern frequencies, floats idealized as reals. -/
noncomputable def HexEngine.computeEntropy (e : HexEngine) : ℝ :=
  let total := e.entropyStats.1
  e.entropyStats.2.foldl (fun acc c =>
    if 0 < c then acc - ((c : ℝ) / (total : ℝ)) * Real.logb 2 ((c : ℝ) / (total : ℝ))
    else acc) 0

/-- Modelled from the spec: `engine.add_piece(coord, piece)` used by the
algorithms is not defined in `src/python/hex.py`; per §4.4/§6 it applies the
placement (`place`/`add`) to the (copied) board. -/
def HexEngine.addPiece (e : HexEngine) (origin : Hex) (p : Piece) : HexEngine :=
  (e.addRun origin p).1

/-- The shared enumeration loop of `nrsearch` and `nrminimax`:
deduplicate queue pieces by their shape signature (`int(piece)` is not
defined in `src/python/hex.py`; per §4.3/§4.5 the signature is the 7-bit
mask), and collect one scored option per legal origin of each distinct
piece, keyed by the queue index of its first occurrence. -/
def scanOptions {α : Type} (engine : HexEngine) (queue : List Piece)
    (score : Nat → Piece → Hex → α) : List (Nat × Hex × α) :=
  (queue.enum.foldl (fun (st : List Nat × List (Nat × Hex × α)) pi =>
    let key := pi.2.toByte
    if key ∈ st.1 then st
    else (st.1 ++ [key],
          st.2 ++ (engine.checkPositions pi.2).map (fun c => (pi.1, c, score pi.1 pi.2 c))))
    ([], [])).2

/-- Python's `max(options, key=...)`: the first option of maximal score. -/
def pickBest {α : Type} [LinearOrder α] : List (Nat × Hex × α) → Nat × Hex
  | [] => (0, ⟨0, 0⟩)
  | o :: rest =>
    let m := rest.foldl (fun best x => if best.2.2 < x.2.2 then x else best) o
    (m.1, m.2.1)

/-- `algos.nrsearch`.  `len(piece)` is not defined in `src/python/hex.py`;
per §4.5 it is the shape size (the piece's block count), and
`engine.radius` is the board radius. -/
def nrsearch (engine : HexEngine) (queue : List Piece) : Except String (Nat × Hex) :=
  let options := scanOptions engine queue (fun _ piece coord =>
    engine.computeDenseIndex coord piece + (piece.blocks.length : ℚ) +
      (((engine.addPiece coord piece).eliminate).2.length : ℚ) / (engine.radius : ℚ))
  if options.isEmpty then .error "No valid options found"
  else .ok (pickBest options)

/-- `algos.nrminimax`, with its real-valued entropy term. -/
noncomputable def nrminimax (engine : HexEngine) (queue : List Piece) :
    Except String (Nat × Hex) :=
  let wCurrentEntropy := engine.computeEntropy - 0.21
  let options := scanOptions engine queue (fun _ piece coord =>
    let copyEngine := engine.addPiece coord piece
    let afterElim := copyEngine.eliminate
    ((engine.computeDenseIndex coord piece : ℚ) : ℝ) * 4 +
      ((afterElim.2.length : ℝ) / (copyEngine.radius : ℝ)) * 5 +
      7 / (1 + Real.exp (-3 * (afterElim.1.computeEntropy - wCurrentEntropy))))
  if options.isEmpty then .error "No valid options found"
  else .ok (pickBest options)

/-! ### Concrete test fixtures -/

/-- Occupy every cell of a board through `set_state`. -/
def occupyAll (e : HexEngine) : HexEngine :=
  (e.blocks.map (fun b => Hex.canon b.toHex)).foldl (fun acc h => acc.setState h true) e

/-- The fully occupied radius-2 board (all 7 cells). -/
def fullR2 : HexEngine := occupyAll (HexEngine.init 2)

/-- The fully occupied radius-3 board (all 19 cells). -/
def fullR3 : HexEngine := occupyAll (HexEngine.init 3)

/-- A two-cell piece at line coordinates (0,0) and (5,5); the second cell is
outside every small board. -/
def strayPiece : Piece :=
  ((Piece.ofCapacity 2 7).addHex (Hex.hexAt 0 0)).1.addHex (Hex.hexAt 5 5) |>.1

/-- The board coordinates left empty in the density counterexample: a flower
centered at (4,4) plus the isolated cell (1,1). -/
def denseFree : List (Int × Int) :=
  [(3, 3), (3, 4), (4, 3), (4, 4), (4, 5), (5, 4), (5, 5), (1, 1)]

/-- A radius-4 board occupied everywhere except `denseFree`. -/
def denseBoard : HexEngine :=
  ((HexEngine.init 4).blocks.map (fun b => (b.lineI, b.lineK))).foldl
    (fun acc p => if p ∈ denseFree then acc else acc.setState (Hex.hexAt p.1 p.2) true)
    (HexEngine.init 4)

/-- A 12-block piece: a 7-cell flower centered at (1,1) plus five duplicate
blocks at (-2,-2). -/
def densePiece : Piece :=
  ([((0 : Int), (0 : Int)), (0, 1), (1, 0), (1, 1), (1, 2), (2, 1), (2, 2),
    (-2, -2), (-2, -2), (-2, -2), (-2, -2), (-2, -2)].foldl
    (fun acc p => (acc.addHex (Hex.hexAt p.1 p.2)).1)
    (Piece.ofCapacity 12 9))

/-! ### Well-formedness of boards -/

/-- The (lineI, lineK) key of a block, the sort key of the board array. -/
def coordsOf (b : Block) : Int × Int := (b.lineI, b.lineK)

/-- Strict lexicographic order on (lineI, lineK) keys. -/
def lexLt (p q : Int × Int) : Prop := p.1 < q.1 ∨ (p.1 = q.1 ∧ p.2 < q.2)

instance : DecidableRel lexLt := fun p q => by unfold lexLt; infer_instance

/-- The board array invariant: strictly ascending (lineI, lineK). -/
def sortedCoords (l : List Block) : Prop := (l.map coordsOf).Pairwise lexLt

/-- The range predicate of the board on line coordinates (for a lattice
point, `lineJ = lineK - lineI`). -/
def validLine (r : Nat) (i k : Int) : Prop :=
  0 ≤ i ∧ i < (r : Int) * 2 - 1 ∧ -(r : Int) < k - i ∧ k - i < (r : Int) ∧
    0 ≤ k ∧ k < (r : Int) * 2 - 1

instance (r : Nat) (i k : Int) : Decidable (validLine r i k) := by
  unfold validLine; infer_instance

/-- A block whose raw coordinates lie on the hexagonal lattice (every block
built through the factories does). -/
def latticeBlock (b : Block) : Prop := (3 : Int) ∣ (b.x - b.y)

/-- Well-formed board: sorted block array, every stored block a lattice
point with valid line coordinates, and one block per valid line
coordinate. -/
def HexEngine.WF (e : HexEngine) : Prop :=
  sortedCoords e.blocks ∧
  (∀ b ∈ e.blocks, latticeBlock b ∧ validLine e.radius b.lineI b.lineK) ∧
  (∀ i k : Int, validLine e.radius i k → ∃ b ∈ e.blocks, b.lineI = i ∧ b.lineK = k)

/-! ## Theorems -/

/-- Canonicalization is the identity on lattice points (`x ≡ y (mod 3)`). -/
theorem Hex.canon_eq (h : Hex) (hl : (3 : Int) ∣ (h.x - h.y)) : Hex.canon h = h := by
  obtain ⟨t, ht⟩ := hl
  have hx : 2 * h.y + h.x = 3 * (h.y + t) := by omega
  have hy : 2 * h.x + h.y = 3 * (h.x - t) := by omega
  have hi : h.lineI = h.y + t := by
    rw [Hex.lineI, hx, Int.mul_fdiv_cancel_left _ (by norm_num)]
  have hk : h.lineK = h.x - t := by
    rw [Hex.lineK, hy, Int.mul_fdiv_cancel_left _ (by norm_num)]
  simp only [Hex.canon, Hex.hexAt, Hex.shiftI, Hex.shiftK, hi, hk]
  cases h
  simp only [Hex.mk.injEq]
  constructor <;> (simp only at ht ⊢; omega)

/-- C9: adding a bare coordinate to a colored block, in either dispatch order,
yields a block keeping the block's color and state, whose coordinate is the
raw vector sum — provided the block is a lattice point (as every block built
through the factories is). -/
theorem hex_block_add_spec (h : Hex) (b : Block) (hl : (3 : Int) ∣ (b.x - b.y)) :
    Hex.addBlock h b = Block.rawSum b h ∧ Block.addHex b h = Block.rawSum b h := by
  have hc : Hex.canon b.toHex = b.toHex := Hex.canon_eq _ hl
  simp only [Block.toHex] at hc
  constructor <;>
    simp only [Hex.addBlock, Block.addHex, Block.toHex, hc, Hex.add, Block.rawSum]

/-- C9 witness at a concrete block and coordinate. -/
theorem hex_block_add_spec_witness :
    (3 : Int) ∣ ((7 : Int) - 4) ∧
      Hex.addBlock ⟨2, -5⟩ ⟨7, 4, 3, true⟩ = Block.rawSum ⟨7, 4, 3, true⟩ ⟨2, -5⟩ := by
  exact ⟨by decide, (hex_block_add_spec ⟨2, -5⟩ ⟨7, 4, 3, true⟩ (by decide)).1⟩

theorem sh_findSome (h : Hex) (l1 l2 : List (Option Block))
    (he : l1.map shOf = l2.map shOf) :
    Option.map Block.sh (l1.findSome? (Piece.matchCoord h)) =
      Option.map Block.sh (l2.findSome? (Piece.matchCoord h)) := by
  induction l1 generalizing l2 with
  | nil =>
    cases l2 with
    | nil => rfl
    | cons s t => simp at he
  | cons s1 t1 ih =>
    cases l2 with
    | nil => simp at he
    | cons s2 t2 =>
      simp only [List.map_cons, List.cons.injEq] at he
      obtain ⟨h1, h2⟩ := he
      rw [List.findSome?_cons, List.findSome?_cons]
      cases s1 with
      | none =>
        cases s2 with
        | none => exact ih t2 h2
        | some b2 => simp [shOf] at h1
      | some b1 =>
        cases s2 with
        | none => simp [shOf] at h1
        | some b2 =>
          simp only [shOf, Option.map_some', Option.some.injEq, Block.sh,
            Prod.mk.injEq] at h1
          obtain ⟨hx, hy, hs⟩ := h1
          have hLI : b1.lineI = b2.lineI := by
            simp [Block.lineI, Block.toHex, hx, hy]
          have hLK : b1.lineK = b2.lineK := by
            simp [Block.lineK, Block.toHex, hx, hy]
          simp only [Piece.matchCoord, hLI, hLK]
          by_cases hc : b2.lineI = h.lineI ∧ b2.lineK = h.lineK
          · simp [hc, Block.sh, hx, hy, hs]
          · simp only [if_neg hc]
            exact ih t2 h2

theorem Piece.getState_shcongr (p q : Piece)
    (he : p.blocks.map shOf = q.blocks.map shOf) (h : Hex) :
    p.getState h = q.getState h := by
  have hfs := sh_findSome h p.blocks q.blocks he
  unfold Piece.getState Piece.getBlockAt
  cases hp : p.blocks.findSome? (Piece.matchCoord h) with
  | none =>
    rw [hp] at hfs
    cases hq : q.blocks.findSome? (Piece.matchCoord h) with
    | none => rfl
    | some b2 => rw [hq] at hfs; simp at hfs
  | some b1 =>
    rw [hp] at hfs
    cases hq : q.blocks.findSome? (Piece.matchCoord h) with
    | none => rw [hq] at hfs; simp at hfs
    | some b2 =>
      rw [hq] at hfs
      simp only [Option.map_some', Option.some.injEq, Block.sh, Prod.mk.injEq] at hfs
      exact hfs.2.2

theorem Piece.toByte_shcongr (p q : Piece)
    (he : p.blocks.map shOf = q.blocks.map shOf) :
    p.toByte = q.toByte := by
  unfold Piece.toByte
  simp only [Piece.getState_shcongr p q he]

theorem placeFirst_shcongr (b1 b2 : Block) (hb : Block.sh b1 = Block.sh b2) :
    ∀ (l1 l2 : List (Option Block)), l1.map shOf = l2.map shOf →
      (Piece.placeFirst l1 b1).1.map shOf = (Piece.placeFirst l2 b2).1.map shOf := by
  intro l1
  induction l1 with
  | nil =>
    intro l2 he
    cases l2 with
    | nil => rfl
    | cons s t => simp at he
  | cons s1 t1 ih =>
    intro l2 he
    cases l2 with
    | nil => simp at he
    | cons s2 t2 =>
      simp only [List.map_cons, List.cons.injEq] at he
      obtain ⟨h1, h2⟩ := he
      cases s1 with
      | none =>
        cases s2 with
        | none => simp [Piece.placeFirst, shOf, Option.map_some', hb, h2]
        | some b => simp [shOf] at h1
      | some a1 =>
        cases s2 with
        | none => simp [shOf] at h1
        | some a2 =>
          simp only [Piece.placeFirst, List.map_cons]
          rw [ih t2 h2]
          simp only [List.cons.injEq]
          exact ⟨h1, trivial⟩

theorem Piece.addHex_shcongr (p q : Piece) (h : Hex)
    (he : p.blocks.map shOf = q.blocks.map shOf) :
    (p.addHex h).1.blocks.map shOf = (q.addHex h).1.blocks.map shOf := by
  unfold Piece.addHex
  exact placeFirst_shcongr _ _ (by simp [Block.sh, Block.atLine]) _ _ he

theorem Piece.addBit_shcongr (p q : Piece) (cond : Bool) (h : Hex)
    (he : p.blocks.map shOf = q.blocks.map shOf) :
    (Piece.addBit cond h p).blocks.map shOf = (Piece.addBit cond h q).blocks.map shOf := by
  unfold Piece.addBit
  cases cond with
  | false => exact he
  | true => exact Piece.addHex_shcongr p q h he

theorem Piece.buildFromBits_shcongr (n : Nat) (c : Int) :
    (Piece.buildFromBits n c).blocks.map shOf = (Piece.buildFromBits n 0).blocks.map shOf := by
  unfold Piece.buildFromBits
  apply Piece.addBit_shcongr
  apply Piece.addBit_shcongr
  apply Piece.addBit_shcongr
  apply Piece.addBit_shcongr
  apply Piece.addBit_shcongr
  apply Piece.addBit_shcongr
  apply Piece.addBit_shcongr
  rfl

set_option maxHeartbeats 2000000 in
theorem buildFromBits_toByte_eval (n : Nat) (h1 : 1 ≤ n) (h2 : n ≤ 127) :
    (Piece.buildFromBits n 0).toByte = n := by
  interval_cases n <;> rfl

/-- C5: for every mask in [1, 127] and every color, decoding then re-encoding
the 7-bit piece mask is the identity. -/
theorem piece_mask_roundtrip (d c : Int) (h1 : 1 ≤ d) (h2 : d ≤ 127) :
    (Piece.fromByte d c).map (fun p => (p.toByte : Int)) = .ok d := by
  unfold Piece.fromByte
  rw [if_neg (by omega), if_neg (by omega)]
  have hb : (Piece.buildFromBits d.toNat c).toByte = (Piece.buildFromBits d.toNat 0).toByte :=
    Piece.toByte_shcongr _ _ (Piece.buildFromBits_shcongr d.toNat c)
  simp only [Except.map, hb, buildFromBits_toByte_eval d.toNat (by omega) (by omega)]
  congr 1
  omega

/-- C5 witness at mask 37 and color 5. -/
theorem piece_mask_roundtrip_witness :
    ((1 : Int) ≤ 37 ∧ (37 : Int) ≤ 127) ∧
      (Piece.fromByte 37 5).map (fun p => (p.toByte : Int)) = .ok 37 :=
  ⟨⟨by norm_num, by norm_num⟩, piece_mask_roundtrip 37 5 (by norm_num) (by norm_num)⟩

/-- C10: the Grid-capability merge on a `Piece` raises unconditionally and
leaves the piece unchanged, for every origin and every other grid. -/
theorem piece_add_grid_prohibited (p : Piece) (origin : Hex) (other : AnyGrid) :
    (Piece.addGrid p origin other).1 = p ∧
      (Piece.addGrid p origin other).2 =
        some "Adding Grid to piece prohibited. Please add block by block." :=
  ⟨rfl, rfl⟩

set_option maxRecDepth 4000 in
/-- C1: `HexEngine.add` is not atomic — on the empty radius-2 board, placing
`strayPiece` at the origin raises the out-of-grid error, yet the board has
been mutated (cell (0,0) was committed before the failing cell was
validated). -/
theorem add_raises_but_mutates :
    ((HexEngine.init 2).addRun (Hex.hexAt 0 0) strayPiece).2 =
        some "Block out of grid when adding" ∧
      ((HexEngine.init 2).addRun (Hex.hexAt 0 0) strayPiece).1 ≠ HexEngine.init 2 := by
  decide

set_option maxRecDepth 4000 in
/-- C2 counterexample: on the fully occupied radius-2 board, `eliminate`
returns 21 block copies, not 7. -/
theorem eliminate_full_r2_not_seven :
    ¬ ((fullR2.eliminate).2.length = 7) := by
  decide

set_option maxRecDepth 4000 in
/-- C2 amended: on the fully occupied radius-2 board, `eliminate` empties
every cell, but the returned snapshot has one copy per (cell, full line)
marking — 21 entries, I-axis lines first, then J, then K, board order within
a line; the 7 I-axis copies still show the occupied state, the 14 later
copies are already cleared. -/
theorem eliminate_full_r2_spec :
    (∀ b ∈ (fullR2.eliminate).1.blocks, b.state = false) ∧
      (fullR2.eliminate).2.length = 21 ∧
      (fullR2.eliminate).2.map (fun b => (b.lineI, b.lineK)) =
        [(0, 0), (0, 1), (1, 0), (1, 1), (1, 2), (2, 1), (2, 2),
         (1, 0), (2, 1), (0, 0), (1, 1), (2, 2), (0, 1), (1, 2),
         (0, 0), (1, 0), (0, 1), (1, 1), (2, 1), (1, 2), (2, 2)] ∧
      ((fullR2.eliminate).2.take 7).all Block.state ∧
      ((fullR2.eliminate).2.drop 7).all (fun b => !b.state) := by
  decide

set_option maxRecDepth 8000 in
/-- C7: the density index is not bounded by 1 — on `denseBoard`, placing
`densePiece` (whose duplicate blocks at (-2,-2) all map onto the free cell
(1,1) surrounded by occupied cells, while in the shape grid they sit next to
a full flower) at origin (3,3) is a valid placement, yet
`compute_dense_index` returns 8/7 > 1. -/
theorem dense_index_exceeds_one :
    denseBoard.checkAdd (Hex.hexAt 3 3) densePiece = true ∧
      denseBoard.computeDenseIndex (Hex.hexAt 3 3) densePiece = 8 / 7 ∧
      ¬ (denseBoard.computeDenseIndex (Hex.hexAt 3 3) densePiece ≤ 1) := by
  have hst : denseBoard.denseAccum (Hex.hexAt 3 3) densePiece = (42, 48, false) := by
    decide
  refine ⟨by decide, ?_, ?_⟩ <;>
    simp only [HexEngine.computeDenseIndex, hst] <;> norm_num


set_option maxRecDepth 100000 in
/-- C8: entropy evaluated at the radius-3 uniform boards.  `fullR3` is the
occupancy inversion of the fresh board `init 3` (same cells, every state
flipped), yet the code computes entropy 2 for the fully occupied board and 0
for the empty one: the boundary-sampling condition `shift_j(1).in_range(r-1)`
admits corner cells whose neighborhoods leave the board, so a fully occupied
board yields four distinct 7-bit patterns. -/
theorem entropy_uniform_r3_eval :
    (∀ b ∈ (HexEngine.init 3).blocks, b.state = false) ∧
      (∀ b ∈ fullR3.blocks, b.state = true) ∧
      fullR3.blocks.map (fun b => (b.lineI, b.lineK)) =
        (HexEngine.init 3).blocks.map (fun b => (b.lineI, b.lineK)) ∧
      HexEngine.computeEntropy (HexEngine.init 3) = 0 ∧
      fullR3.computeEntropy = 2 := by
  refine ⟨by decide, by decide, by decide, ?_, ?_⟩
  · have h : (HexEngine.init 3).entropyStats = (4, [4, 0, 0, 0, 0, 0, 0, 0, 0, 0, 0, 0, 0, 0, 0, 0, 0, 0, 0, 0, 0, 0, 0, 0, 0, 0, 0, 0, 0, 0, 0, 0, 0, 0, 0, 0, 0, 0, 0, 0, 0, 0, 0, 0, 0, 0, 0, 0, 0, 0, 0, 0, 0, 0, 0, 0, 0, 0, 0, 0, 0, 0, 0, 0, 0, 0, 0, 0, 0, 0, 0, 0, 0, 0, 0, 0, 0, 0, 0, 0, 0, 0, 0, 0, 0, 0, 0, 0, 0, 0, 0, 0, 0, 0, 0, 0, 0, 0, 0, 0, 0, 0, 0, 0, 0, 0, 0, 0, 0, 0, 0, 0, 0, 0, 0, 0, 0, 0, 0, 0, 0, 0, 0, 0, 0, 0, 0, 0]) := by decide
    simp only [HexEngine.computeEntropy, h]
    norm_num [List.foldl, Real.logb_one]
  · have h : fullR3.entropyStats = (4, [0, 0, 0, 0, 0, 0, 0, 0, 0, 0, 0, 0, 0, 0, 0, 1, 0, 0, 0, 0, 0, 0, 0, 0, 0, 0, 0, 0, 0, 0, 0, 1, 0, 0, 0, 0, 0, 0, 0, 0, 0, 0, 0, 0, 0, 0, 0, 1, 0, 0, 0, 0, 0, 0, 0, 0, 0, 0, 0, 0, 0, 0, 0, 0, 0, 0, 0, 0, 0, 0, 0, 0, 0, 0, 0, 0, 0, 0, 0, 0, 0, 0, 0, 0, 0, 0, 0, 0, 0, 0, 0, 0, 0, 0, 0, 0, 0, 0, 0, 0, 0, 0, 0, 0, 0, 0, 0, 0, 0, 0, 0, 0, 0, 0, 0, 0, 0, 0, 0, 0, 0, 0, 0, 0, 0, 0, 0, 1]) := by decide
    have hl : Real.logb 2 ((1 : ℝ)/4) = -2 := by
      rw [show ((1 : ℝ)/4) = ((2 : ℝ)^(2 : ℕ))⁻¹ by norm_num, Real.logb_inv, Real.logb_pow,
        Real.logb_self_eq_one (by norm_num)]
      norm_num
    simp only [HexEngine.computeEntropy, h]
    norm_num [List.foldl, hl]

/-! ### Coordinate lemmas -/

theorem Hex.hexAt_def (i k : Int) : Hex.hexAt i k = ⟨2 * k - i, 2 * i - k⟩ := by
  simp only [Hex.hexAt, Hex.shiftI, Hex.shiftK, Hex.mk.injEq]
  constructor <;> ring

theorem Hex.hexAt_lineI (i k : Int) : (Hex.hexAt i k).lineI = i := by
  rw [Hex.hexAt_def]
  show (2 * (2 * i - k) + (2 * k - i)).fdiv 3 = i
  rw [show 2 * (2 * i - k) + (2 * k - i) = 3 * i by ring,
    Int.mul_fdiv_cancel_left _ (by norm_num)]

theorem Hex.hexAt_lineK (i k : Int) : (Hex.hexAt i k).lineK = k := by
  rw [Hex.hexAt_def]
  show (2 * (2 * k - i) + (2 * i - k)).fdiv 3 = k
  rw [show 2 * (2 * k - i) + (2 * i - k) = 3 * k by ring,
    Int.mul_fdiv_cancel_left _ (by norm_num)]

theorem Hex.hexAt_lineJ (i k : Int) : (Hex.hexAt i k).lineJ = k - i := by
  rw [Hex.hexAt_def]
  show ((2 * k - i) - (2 * i - k)).fdiv 3 = k - i
  rw [show (2 * k - i) - (2 * i - k) = 3 * (k - i) by ring,
    Int.mul_fdiv_cancel_left _ (by norm_num)]

theorem Hex.hexAt_lattice (i k : Int) : (3 : Int) ∣ ((Hex.hexAt i k).x - (Hex.hexAt i k).y) := by
  rw [Hex.hexAt_def]
  exact ⟨k - i, by ring⟩

/-- For a lattice point, `in_range` coincides with `validLine` on the line
coordinates. -/
theorem Hex.inRange_iff_validLine (h : Hex) (hl : (3 : Int) ∣ (h.x - h.y)) (r : Nat) :
    h.inRange (r : Int) = true ↔ validLine r h.lineI h.lineK := by
  obtain ⟨t, ht⟩ := hl
  have hx : 2 * h.y + h.x = 3 * (h.y + t) := by omega
  have hy : 2 * h.x + h.y = 3 * (h.x - t) := by omega
  have hxy : h.x - h.y = 3 * t := ht
  have hi : h.lineI = h.y + t := by
    rw [Hex.lineI, hx, Int.mul_fdiv_cancel_left _ (by norm_num)]
  have hk : h.lineK = h.x - t := by
    rw [Hex.lineK, hy, Int.mul_fdiv_cancel_left _ (by norm_num)]
  have hj : h.lineJ = t := by
    rw [Hex.lineJ, hxy, Int.mul_fdiv_cancel_left _ (by norm_num)]
  simp only [Hex.inRange, validLine, Bool.and_eq_true, decide_eq_true_eq, hi, hk, hj]
  omega

theorem Hex.inRange_hexAt (i k : Int) (r : Nat) :
    (Hex.hexAt i k).inRange (r : Int) = true ↔ validLine r i k := by
  rw [Hex.inRange_iff_validLine _ (Hex.hexAt_lattice i k) r, Hex.hexAt_lineI, Hex.hexAt_lineK]

/-- Translating a block by a canonical origin lands on the canonical hex of
the summed line coordinates. -/
theorem Block.addHex_toHex (b : Block) (oi ok : Int) :
    (b.addHex (Hex.hexAt oi ok)).toHex = Hex.hexAt (b.lineI + oi) (b.lineK + ok) := by
  simp only [Block.addHex, Hex.canon, Block.toHex, Block.lineI, Block.lineK,
    Hex.hexAt_def, Hex.add, Hex.mk.injEq]
  constructor <;> ring

theorem Block.addHex_color_state (b : Block) (h : Hex) :
    (b.addHex h).color = b.color ∧ (b.addHex h).state = b.state := ⟨rfl, rfl⟩

/-! ### Binary search -/

theorem fdiv_mid_bounds (start stop : Int) (h : start ≤ stop) :
    start ≤ (start + stop).fdiv 2 ∧ (start + stop).fdiv 2 ≤ stop := by
  rw [Int.fdiv_eq_ediv _ (by norm_num)]
  omega

theorem searchAux_sound (blocks : List Block) (i k : Int) :
    ∀ (fuel : Nat) (start stop r : Int),
      HexEngine.searchAux blocks i k fuel start stop = r → 0 ≤ r →
      start ≤ r ∧ r ≤ stop ∧
        (blocks.getD r.toNat default).lineI = i ∧
        (blocks.getD r.toNat default).lineK = k := by
  intro fuel
  induction fuel with
  | zero =>
    intro start stop r hr h0
    simp only [HexEngine.searchAux] at hr
    omega
  | succ n ih =>
    intro start stop r hr h0
    simp only [HexEngine.searchAux] at hr
    split at hr
    · omega
    · rename_i hle
      have hmid := fdiv_mid_bounds start stop (by omega)
      split at hr
      · rename_i hfound
        subst hr
        exact ⟨hmid.1, hmid.2, hfound.1, hfound.2⟩
      · split at hr
        · have := ih _ _ _ hr h0
          exact ⟨by omega, by omega, this.2.2⟩
        · have := ih _ _ _ hr h0
          exact ⟨by omega, by omega, this.2.2⟩

theorem sortedCoords_get (l : List Block) (hs : sortedCoords l) (p q : Nat)
    (hp : p < l.length) (hq : q < l.length) (hpq : p < q) :
    lexLt (coordsOf l[p]) (coordsOf l[q]) := by
  rw [sortedCoords, List.pairwise_iff_getElem] at hs
  have := hs p q (by simpa using hp) (by simpa using hq) hpq
  simpa using this

theorem searchAux_finds (blocks : List Block) (i k : Int) (hs : sortedCoords blocks) :
    ∀ (fuel : Nat) (start stop : Int) (p : Nat),
      (stop + 1 - start).toNat ≤ fuel →
      0 ≤ start → stop < (blocks.length : Int) →
      start ≤ (p : Int) → (p : Int) ≤ stop →
      (blocks.getD p default).lineI = i → (blocks.getD p default).lineK = k →
      0 ≤ HexEngine.searchAux blocks i k fuel start stop := by
  intro fuel
  induction fuel with
  | zero =>
    intro start stop p hfuel h0 hstop hp1 hp2 hpi hpk
    omega
  | succ n ih =>
    intro start stop p hfuel h0 hstop hp1 hp2 hpi hpk
    have hplen : p < blocks.length := by omega
    simp only [HexEngine.searchAux]
    split
    · omega
    · rename_i hle
      have hmid := fdiv_mid_bounds start stop (by omega)
      set mid := (start + stop).fdiv 2 with hmiddef
      have hmidnat : mid.toNat < blocks.length := by omega
      have hgetp : (blocks.getD p default) = blocks[p] :=
        List.getD_eq_getElem blocks default hplen
      have hgetm : (blocks.getD mid.toNat default) = blocks[mid.toNat] :=
        List.getD_eq_getElem blocks default hmidnat
      split
      · omega
      · rename_i hfound
        split
        · rename_i hlt
          -- the stored key at mid is lexicographically below (i, k): p lies right of mid
          apply ih (mid + 1) stop p (by omega) (by omega) hstop ?_ hp2 hpi hpk
          by_contra hcon
          rcases Nat.lt_or_ge p mid.toNat with hplt | hpge
          · have hlx := sortedCoords_get blocks hs p mid.toNat hplen hmidnat hplt
            rw [← hgetp, ← hgetm] at hlx
            simp only [coordsOf, lexLt, hpi, hpk] at hlx
            rcases hlx with h1 | h1 <;> rcases hlt with h2 | h2 <;> omega
          · have hpeq : p = mid.toNat := by omega
            rw [hpeq] at hpi hpk
            exact hfound ⟨hpi, hpk⟩
        · rename_i hnlt
          -- the stored key at mid is lexicographically above (i, k): p lies left of mid
          push_neg at hnlt
          apply ih start (mid - 1) p (by omega) h0 (by omega) hp1 ?_ hpi hpk
          by_contra hcon
          rcases Nat.lt_or_ge mid.toNat p with hplt | hpge
          · have hlx := sortedCoords_get blocks hs mid.toNat p hmidnat hplen hplt
            rw [← hgetp, ← hgetm] at hlx
            simp only [coordsOf, lexLt, hpi, hpk] at hlx
            obtain ⟨hn1, hn2⟩ := hnlt
            rcases hlx with h1 | h1
            · omega
            · have := hn2 h1.1
              omega
          · have hpeq : p = mid.toNat := by omega
            rw [hpeq] at hpi hpk
            exact hfound ⟨hpi, hpk⟩

/-! ### Lookup on well-formed boards -/

theorem HexEngine.getBlock_some (e : HexEngine) (h : Hex) (b : Block)
    (hb : e.getBlock h = some b) :
    b ∈ e.blocks ∧ b.lineI = h.lineI ∧ b.lineK = h.lineK := by
  simp only [HexEngine.getBlock] at hb
  split at hb
  · split at hb
    · rename_i hidx
      have hsd := searchAux_sound e.blocks h.lineI h.lineK _ _ _ _ rfl hidx
      obtain ⟨h1, h2, h3, h4⟩ := hsd
      have hlen : (HexEngine.search e h.lineI h.lineK 0 ((e.blocks.length : Int) - 1)).toNat
          < e.blocks.length := by
        unfold HexEngine.search at *
        omega
      simp only [Option.some.injEq] at hb
      subst hb
      refine ⟨?_, ?_, ?_⟩
      · rw [List.getD_eq_getElem e.blocks default hlen]
        exact List.getElem_mem hlen
      · exact h3
      · exact h4
    · exact absurd hb (by simp)
  · exact absurd hb (by simp)

theorem HexEngine.getBlock_isSome (e : HexEngine) (hWF : e.WF) (h : Hex)
    (hl : (3 : Int) ∣ (h.x - h.y)) (hin : h.inRange (e.radius : Int) = true) :
    ∃ b, e.getBlock h = some b := by
  obtain ⟨hsort, hmem, hcomp⟩ := hWF
  have hvalid : validLine e.radius h.lineI h.lineK :=
    (Hex.inRange_iff_validLine h hl e.radius).mp hin
  obtain ⟨b, hbmem, hbi, hbk⟩ := hcomp _ _ hvalid
  obtain ⟨p, hp, hbp⟩ := List.getElem_of_mem hbmem
  unfold HexEngine.getBlock
  rw [hin]
  simp only [if_true]
  have hfind := searchAux_finds e.blocks h.lineI h.lineK hsort
    ((e.blocks.length : Int) - 1 + 1 - 0).toNat 0 ((e.blocks.length : Int) - 1) p
    (by omega) (by omega) (by omega) (by omega) (by omega)
    (by rw [List.getD_eq_getElem e.blocks default hp, hbp]; exact hbi)
    (by rw [List.getD_eq_getElem e.blocks default hp, hbp]; exact hbk)
  unfold HexEngine.search
  rw [if_pos hfind]
  exact ⟨_, rfl⟩

/-- On a sorted board two stored blocks with the same line coordinates are
the same block. -/
theorem sortedCoords_unique (l : List Block) (hs : sortedCoords l) (b1 b2 : Block)
    (h1 : b1 ∈ l) (h2 : b2 ∈ l) (hei : b1.lineI = b2.lineI) (hek : b1.lineK = b2.lineK) :
    b1 = b2 := by
  obtain ⟨p, hp, hbp⟩ := List.getElem_of_mem h1
  obtain ⟨q, hq, hbq⟩ := List.getElem_of_mem h2
  rcases Nat.lt_trichotomy p q with hlt | heq | hgt
  · have := sortedCoords_get l hs p q hp hq hlt
    rw [hbp, hbq] at this
    simp only [coordsOf, lexLt, hei, hek] at this
    omega
  · subst heq
    rw [← hbp, ← hbq]
  · have := sortedCoords_get l hs q p hq hp hgt
    rw [hbp, hbq] at this
    simp only [coordsOf, lexLt, hei, hek] at this
    omega

theorem HexEngine.getBlock_none_iff (e : HexEngine) (hWF : e.WF) (h : Hex)
    (hl : (3 : Int) ∣ (h.x - h.y)) :
    e.getBlock h = none ↔ ¬ ∃ b ∈ e.blocks, b.lineI = h.lineI ∧ b.lineK = h.lineK := by
  constructor
  · intro hnone ⟨b, hbmem, hbi, hbk⟩
    obtain ⟨hsort, hmem, hcomp⟩ := hWF
    by_cases hin : h.inRange (e.radius : Int) = true
    · obtain ⟨t, ht⟩ := e.getBlock_isSome ⟨hsort, hmem, hcomp⟩ h hl hin
      rw [ht] at hnone
      exact absurd hnone (by simp)
    · have hvb : validLine e.radius b.lineI b.lineK := (hmem b hbmem).2
      rw [hbi, hbk] at hvb
      exact hin ((Hex.inRange_iff_validLine h hl e.radius).mpr hvb)
  · intro hno
    cases hg : e.getBlock h with
    | none => rfl
    | some t =>
      obtain ⟨htm, hti, htk⟩ := e.getBlock_some h t hg
      exact absurd ⟨t, htm, hti, htk⟩ hno

/-! ### C4: check_add -/

/-- A board cell exists at the translation of `blk` by the origin
`(oi, ok)`. -/
def targetExists (e : HexEngine) (oi ok : Int) (blk : Block) : Prop :=
  ∃ tb ∈ e.blocks, tb.lineI = blk.lineI + oi ∧ tb.lineK = blk.lineK + ok

/-- The board cell at the translation of `blk` is occupied. -/
def targetOccupied (e : HexEngine) (oi ok : Int) (blk : Block) : Prop :=
  ∃ tb ∈ e.blocks, tb.lineI = blk.lineI + oi ∧ tb.lineK = blk.lineK + ok ∧ tb.state = true

/-- C4: on a well-formed board, `check_add` returns `false` exactly when some
occupied cell of the shape, translated by the origin, has no board cell at
its coordinates or lands on an occupied board cell.  The embedding returns a
plain boolean and leaves the board untouched, matching "never raises and
performs no mutation". -/
theorem check_add_iff (e : HexEngine) (hWF : e.WF) (oi ok : Int) (p : Piece) :
    e.checkAdd (Hex.hexAt oi ok) p = false ↔
      ∃ blk ∈ p.blocksList, blk.state = true ∧
        (¬ targetExists e oi ok blk ∨ targetOccupied e oi ok blk) := by
  have hkey : ∀ blk : Block,
      (blk.addHex (Hex.hexAt oi ok)).toHex = Hex.hexAt (blk.lineI + oi) (blk.lineK + ok) :=
    fun blk => Block.addHex_toHex blk oi ok
  unfold HexEngine.checkAdd
  rw [List.all_eq_false]
  constructor
  · rintro ⟨blk, hmem, hf⟩
    refine ⟨blk, hmem, ?_⟩
    by_cases hstate : blk.state
    · refine ⟨hstate, ?_⟩
      simp only [hstate, if_true] at hf
      rw [hkey blk] at hf
      cases hg : e.getBlock (Hex.hexAt (blk.lineI + oi) (blk.lineK + ok)) with
      | none =>
        left
        have hno := (e.getBlock_none_iff hWF _ (Hex.hexAt_lattice _ _)).mp hg
        intro ⟨tb, htbm, htbi, htbk⟩
        exact hno ⟨tb, htbm, by rw [htbi, Hex.hexAt_lineI], by rw [htbk, Hex.hexAt_lineK]⟩
      | some t =>
        right
        rw [hg] at hf
        simp only [Bool.not_eq_true'] at hf
        obtain ⟨htm, hti, htk⟩ := e.getBlock_some _ t hg
        rw [Hex.hexAt_lineI] at hti
        rw [Hex.hexAt_lineK] at htk
        exact ⟨t, htm, hti, htk, by simpa using hf⟩
    · simp [hstate] at hf
  · rintro ⟨blk, hmem, hstate, hdisj⟩
    refine ⟨blk, hmem, ?_⟩
    simp only [hstate, if_true]
    rw [hkey blk]
    rcases hdisj with hnone | ⟨tb, htbm, htbi, htbk, htbs⟩
    · have hg : e.getBlock (Hex.hexAt (blk.lineI + oi) (blk.lineK + ok)) = none := by
        rw [e.getBlock_none_iff hWF _ (Hex.hexAt_lattice _ _)]
        intro ⟨tb, htbm, htbi, htbk⟩
        rw [Hex.hexAt_lineI] at htbi
        rw [Hex.hexAt_lineK] at htbk
        exact hnone ⟨tb, htbm, htbi, htbk⟩
      rw [hg]
      simp
    · cases hg : e.getBlock (Hex.hexAt (blk.lineI + oi) (blk.lineK + ok)) with
      | none =>
        have hno := (e.getBlock_none_iff hWF _ (Hex.hexAt_lattice _ _)).mp hg
        exact absurd ⟨tb, htbm, by rw [Hex.hexAt_lineI]; exact htbi,
          by rw [Hex.hexAt_lineK]; exact htbk⟩ hno
      | some t =>
        obtain ⟨htm, hti, htk⟩ := e.getBlock_some _ t hg
        rw [Hex.hexAt_lineI] at hti
        rw [Hex.hexAt_lineK] at htk
        have : t = tb := sortedCoords_unique e.blocks hWF.1 t tb htm htbm
          (by rw [hti, htbi]) (by rw [htk, htbk])
        subst this
        simp [htbs]

/-! ### C3: board construction -/

theorem HexEngine.boardBlock_toHex (a b : Nat) :
    (HexEngine.boardBlock a b).toHex = Hex.hexAt (a : Int) (b : Int) := by
  rw [Hex.hexAt_def]
  rfl

theorem HexEngine.boardBlock_lineI (a b : Nat) :
    (HexEngine.boardBlock a b).lineI = (a : Int) := by
  rw [Block.lineI, HexEngine.boardBlock_toHex, Hex.hexAt_lineI]

theorem HexEngine.boardBlock_lineK (a b : Nat) :
    (HexEngine.boardBlock a b).lineK = (b : Int) := by
  rw [Block.lineK, HexEngine.boardBlock_toHex, Hex.hexAt_lineK]

theorem HexEngine.boardBlock_lattice (a b : Nat) :
    latticeBlock (HexEngine.boardBlock a b) :=
  ⟨(b : Int) - (a : Int), by simp only [HexEngine.boardBlock]; ring⟩

theorem HexEngine.boardBlock_inRange (r a b : Nat) :
    (HexEngine.boardBlock a b).inRange (r : Int) = true ↔ validLine r (a : Int) (b : Int) := by
  rw [Block.inRange, HexEngine.boardBlock_toHex, Hex.inRange_hexAt]

theorem HexEngine.init_coords (r : Nat) :
    (HexEngine.init r).blocks.map coordsOf =
      (List.range (r * 2)).flatMap (fun a =>
        ((List.range (r * 2)).filter
          (fun b => (HexEngine.boardBlock a b).inRange (r : Int))).map
          (fun (b : Nat) => ((a : Int), (b : Int)))) := by
  simp only [HexEngine.init, List.map_flatMap, List.map_map]
  refine congrArg (List.range (r * 2)).flatMap (funext fun a => ?_)
  refine List.map_congr_left (fun b _ => ?_)
  simp only [Function.comp_apply, coordsOf, HexEngine.boardBlock_lineI,
    HexEngine.boardBlock_lineK]

theorem HexEngine.init_sorted (r : Nat) : sortedCoords (HexEngine.init r).blocks := by
  unfold sortedCoords
  rw [HexEngine.init_coords, List.flatMap_def, List.pairwise_flatten]
  constructor
  · intro l hl
    rw [List.mem_map] at hl
    obtain ⟨a, ha, rfl⟩ := hl
    rw [List.pairwise_map]
    apply List.Pairwise.imp ?_ (List.Pairwise.filter _ (List.pairwise_lt_range (r * 2)))
    intro b b' hbb
    refine Or.inr ⟨rfl, ?_⟩
    show (b : Int) < (b' : Int)
    exact_mod_cast hbb
  · rw [List.pairwise_map]
    apply List.Pairwise.imp ?_ (List.pairwise_lt_range (r * 2))
    intro a a' haa x hx y hy
    rw [List.mem_map] at hx hy
    obtain ⟨b, _, rfl⟩ := hx
    obtain ⟨b', _, rfl⟩ := hy
    refine Or.inl ?_
    show (a : Int) < (a' : Int)
    exact_mod_cast haa

theorem HexEngine.init_mem (r : Nat) (i k : Int) (hv : validLine r i k) :
    ∃ blk ∈ (HexEngine.init r).blocks, blk.lineI = i ∧ blk.lineK = k := by
  obtain ⟨h1, h2, h3, h4, h5, h6⟩ := hv
  refine ⟨HexEngine.boardBlock i.toNat k.toNat, ?_, ?_, ?_⟩
  · simp only [HexEngine.init, List.mem_flatMap, List.mem_map, List.mem_filter,
      List.mem_range]
    refine ⟨i.toNat, by omega, k.toNat, ⟨by omega, ?_⟩, rfl⟩
    rw [HexEngine.boardBlock_inRange]
    simp only [validLine]
    omega
  · rw [HexEngine.boardBlock_lineI]
    omega
  · rw [HexEngine.boardBlock_lineK]
    omega

theorem HexEngine.init_blocks_wf (r : Nat) :
    ∀ blk ∈ (HexEngine.init r).blocks,
      latticeBlock blk ∧ validLine r blk.lineI blk.lineK := by
  intro blk hm
  simp only [HexEngine.init, List.mem_flatMap, List.mem_map, List.mem_filter,
    List.mem_range] at hm
  obtain ⟨a, ha, b, ⟨hb, hin⟩, rfl⟩ := hm
  refine ⟨HexEngine.boardBlock_lattice a b, ?_⟩
  rw [HexEngine.boardBlock_lineI, HexEngine.boardBlock_lineK]
  exact (HexEngine.boardBlock_inRange r a b).mp hin

theorem HexEngine.init_wf (r : Nat) : (HexEngine.init r).WF :=
  ⟨HexEngine.init_sorted r, HexEngine.init_blocks_wf r,
    fun i k hv => HexEngine.init_mem r i k hv⟩

theorem sum_map_range {M : Type} [AddCommMonoid M] (n : Nat) (f : Nat → M) :
    ((List.range n).map f).sum = ∑ i in Finset.range n, f i := by
  induction n with
  | zero => simp
  | succ m ih =>
    rw [List.range_succ, List.map_append, List.sum_append, Finset.sum_range_succ, ih]
    simp

theorem filter_length_eq_card (n : Nat) (p : Nat → Bool) :
    ((List.range n).filter p).length = ((Finset.range n).filter (fun x => p x = true)).card := by
  induction n with
  | zero => rfl
  | succ m ih =>
    rw [List.range_succ, List.filter_append, List.length_append, ih, Finset.range_succ,
      Finset.filter_insert]
    by_cases h : p m = true
    · rw [if_pos h, Finset.card_insert_of_not_mem (by simp)]
      simp [h]
    · rw [if_neg h]
      simp [h]

theorem fiber_card (r : Nat) (hr : 1 ≤ r) (a : Nat) :
    ((Finset.range (r * 2)).filter (fun (b : Nat) => validLine r (a : Int) (b : Int))).card =
      if a ≤ 2 * r - 2 then (min (a + r - 1) (2 * r - 2) + 1) - (a + 1 - r) else 0 := by
  by_cases hc : a ≤ 2 * r - 2
  · rw [if_pos hc]
    have hset : (Finset.range (r * 2)).filter (fun (b : Nat) => validLine r (a : Int) (b : Int)) =
        Finset.Icc (a + 1 - r) (min (a + r - 1) (2 * r - 2)) := by
      ext b
      simp only [Finset.mem_filter, Finset.mem_range, Finset.mem_Icc, validLine]
      omega
    rw [hset, Nat.card_Icc]
  · rw [if_neg hc, Finset.card_eq_zero, Finset.filter_eq_empty_iff]
    intro b hb
    simp only [validLine]
    omega






theorem init_length (r : Nat) (hr : 1 ≤ r) :
    (HexEngine.init r).blocks.length = 1 + 3 * r * (r - 1) := by
  have hmain : (HexEngine.init r).blocks.length =
      ∑ a in Finset.range (r * 2),
        (if a ≤ 2 * r - 2 then (min (a + r - 1) (2 * r - 2) + 1) - (a + 1 - r) else 0) := by
    simp only [HexEngine.init]
    rw [List.length_flatMap, sum_map_range]
    refine Finset.sum_congr rfl (fun a _ => ?_)
    simp only [Function.comp_apply, List.length_map]
    have hpq : ∀ b ∈ List.range (r * 2),
        ((HexEngine.boardBlock a b).inRange (r : Int)) =
          decide (validLine r (a : Int) (b : Int)) := by
      intro b _
      apply Bool.coe_iff_coe.mp
      rw [decide_eq_true_eq]
      exact HexEngine.boardBlock_inRange r a b
    rw [List.filter_congr hpq, filter_length_eq_card]
    have hfc : ((Finset.range (r * 2)).filter
        (fun (x : Nat) => decide (validLine r (a : Int) (x : Int)) = true)) =
        ((Finset.range (r * 2)).filter (fun (b : Nat) => validLine r (a : Int) (b : Int))) := by
      refine Finset.filter_congr (fun x _ => ?_)
      rw [decide_eq_true_eq]
    rw [hfc, fiber_card r hr a]
  rw [hmain]
  rcases Nat.lt_or_ge r 2 with h2 | h2
  · have hre : r = 1 := by omega
    subst hre
    decide
  · obtain ⟨m, rfl⟩ : ∃ m, r = m + 2 := ⟨r - 2, by omega⟩
    rw [show (m + 2) * 2 = (m + 2) + (m + 2) by ring, Finset.sum_range_add]
    have hterm1 : ∀ x ∈ Finset.range (m + 2),
        (if x ≤ 2 * (m + 2) - 2 then
          (min (x + (m + 2) - 1) (2 * (m + 2) - 2) + 1) - (x + 1 - (m + 2)) else 0) =
        x + (m + 2) := by
      intro x hx
      rw [Finset.mem_range] at hx
      rw [if_pos (by omega)]
      omega
    have hS1 : (∑ x in Finset.range (m + 2),
        (if x ≤ 2 * (m + 2) - 2 then
          (min (x + (m + 2) - 1) (2 * (m + 2) - 2) + 1) - (x + 1 - (m + 2)) else 0)) =
        (∑ x in Finset.range (m + 2), x) + (m + 2) * (m + 2) := by
      rw [Finset.sum_congr rfl hterm1, Finset.sum_add_distrib, Finset.sum_const,
        Finset.card_range, smul_eq_mul]
    have hterm2 : ∀ x ∈ Finset.range (m + 1),
        (if (m + 2) + x ≤ 2 * (m + 2) - 2 then
          (min ((m + 2) + x + (m + 2) - 1) (2 * (m + 2) - 2) + 1) -
            ((m + 2) + x + 1 - (m + 2)) else 0) =
        2 * m + 2 - x := by
      intro x hx
      rw [Finset.mem_range] at hx
      rw [if_pos (by omega)]
      omega
    have hS2 : (∑ x in Finset.range (m + 2),
        (if (m + 2) + x ≤ 2 * (m + 2) - 2 then
          (min ((m + 2) + x + (m + 2) - 1) (2 * (m + 2) - 2) + 1) -
            ((m + 2) + x + 1 - (m + 2)) else 0)) =
        ∑ x in Finset.range (m + 1), (2 * m + 2 - x) := by
      have hsplit := Finset.sum_range_succ (fun x =>
        (if (m + 2) + x ≤ 2 * (m + 2) - 2 then
          (min ((m + 2) + x + (m + 2) - 1) (2 * (m + 2) - 2) + 1) -
            ((m + 2) + x + 1 - (m + 2)) else 0)) (m + 1)
      have hone : m + 2 = m + 1 + 1 := rfl
      rw [hone, hsplit]
      rw [if_neg (by omega), add_zero]
      exact Finset.sum_congr rfl hterm2
    rw [hS1, hS2]
    have hG1 : (∑ x in Finset.range (m + 2), x) * 2 = (m + 2) * (m + 1) :=
      Finset.sum_range_id_mul_two (m + 2)
    have hG2 : (∑ x in Finset.range (m + 1), x) * 2 = (m + 1) * m :=
      Finset.sum_range_id_mul_two (m + 1)
    have hterm3 : ∀ x ∈ Finset.range (m + 1), (2 * m + 2 - x) + x = 2 * m + 2 := by
      intro x hx
      rw [Finset.mem_range] at hx
      omega
    have hS2pair : (∑ x in Finset.range (m + 1), (2 * m + 2 - x)) +
        (∑ x in Finset.range (m + 1), x) = (m + 1) * (2 * m + 2) := by
      rw [← Finset.sum_add_distrib, Finset.sum_congr rfl hterm3, Finset.sum_const,
        Finset.card_range, smul_eq_mul]
    set G1 := ∑ x in Finset.range (m + 2), x with hG1def
    set G2 := ∑ x in Finset.range (m + 1), x with hG2def
    set S2 := ∑ x in Finset.range (m + 1), (2 * m + 2 - x) with hS2def
    have hz1 : (G1 : Int) * 2 = ((m : Int) + 2) * ((m : Int) + 1) := by exact_mod_cast hG1
    have hz2 : (G2 : Int) * 2 = ((m : Int) + 1) * (m : Int) := by exact_mod_cast hG2
    have hz3 : (S2 : Int) + (G2 : Int) = ((m : Int) + 1) * (2 * (m : Int) + 2) := by
      exact_mod_cast hS2pair
    have hgoal2 : ((G1 : Int) + ((m : Int) + 2) * ((m : Int) + 2) + S2) * 2 =
        ((1 : Int) + 3 * ((m : Int) + 2) * (((m : Int) + 2) - 1)) * 2 := by
      linear_combination hz1 + 2 * hz3 - hz2
    have hzg : (G1 : Int) + ((m : Int) + 2) * ((m : Int) + 2) + S2 =
        (1 : Int) + 3 * ((m : Int) + 2) * (((m : Int) + 2) - 1) := by omega
    have hfin : G1 + (m + 2) * (m + 2) + S2 = 1 + 3 * (m + 2) * ((m + 2) - 1) := by
      exact_mod_cast hzg
    omega

/-! ### Preservation of the sorted-coordinate invariant -/

theorem list_set_self {α : Type} (l : List α) (n : Nat) (a : α) (h : n < l.length)
    (ha : l[n] = a) : l.set n a = l := by
  apply List.ext_getElem
  · simp
  · intro i h1 h2
    rw [List.getElem_set]
    split
    · rename_i heq
      subst heq
      exact ha.symm
    · rfl

theorem map_coords_set_preserved (l : List Block) (n : Nat) (nb : Block)
    (hco : ∀ _ : n < l.length, coordsOf nb = coordsOf l[n]) :
    (l.set n nb).map coordsOf = l.map coordsOf := by
  rcases Nat.lt_or_ge n l.length with hlt | hge
  · rw [List.map_set]
    refine list_set_self _ _ _ (by simpa using hlt) ?_
    rw [List.getElem_map]
    exact (hco hlt).symm
  · rw [List.set_eq_of_length_le hge]

theorem HexEngine.setState_coords (e : HexEngine) (h : Hex) (st : Bool) :
    (e.setState h st).blocks.map coordsOf = e.blocks.map coordsOf := by
  simp only [HexEngine.setState]
  repeat' split
  all_goals
    first
      | rfl
      | (apply map_coords_set_preserved
         intro hlt
         rw [List.getD_eq_getElem _ _ hlt]
         simp [coordsOf, Block.lineI, Block.lineK, Block.toHex])

theorem HexEngine.setBlock_coords (e : HexEngine) (h : Hex) (blk : Block)
    (hbi : blk.lineI = h.lineI) (hbk : blk.lineK = h.lineK) :
    (e.setBlock h blk).blocks.map coordsOf = e.blocks.map coordsOf := by
  simp only [HexEngine.setBlock]
  split
  · split
    · rename_i hidx
      have hsd := searchAux_sound e.blocks h.lineI h.lineK _ _ _ _ rfl hidx
      obtain ⟨h1, h2, h3, h4⟩ := hsd
      apply map_coords_set_preserved
      intro hlt
      rw [← List.getD_eq_getElem _ default hlt]
      simp only [coordsOf, hbi, hbk, Prod.mk.injEq]
      exact ⟨h3.symm, h4.symm⟩
    · rfl
  · rfl

theorem HexEngine.eliminate_coords (e : HexEngine) :
    (e.eliminate).1.blocks.map coordsOf = e.blocks.map coordsOf := by
  suffices h : ∀ (l : List Nat) (e0 : HexEngine) (out : List Block),
      ((l.foldl (fun (acc : HexEngine × List Block) n =>
        let blk := acc.1.blocks.getD n default
        (acc.1.setState blk.toHex false, acc.2 ++ [blk.copy])) (e0, out)).1.blocks.map coordsOf)
        = e0.blocks.map coordsOf by
    exact h _ e []
  intro l
  induction l with
  | nil => intro e0 out; rfl
  | cons n t ih =>
    intro e0 out
    rw [List.foldl_cons, ih]
    exact HexEngine.setState_coords e0 _ false

theorem HexEngine.addRun_coords (e : HexEngine) (origin : Hex) (p : Piece) :
    ((e.addRun origin p).1.blocks.map coordsOf) = e.blocks.map coordsOf := by
  unfold HexEngine.addRun
  suffices h : ∀ (l : List Block) (e0 : HexEngine) (err : Option String),
      ((l.foldl (fun (acc : HexEngine × Option String) blk =>
        match acc.2 with
        | some _ => acc
        | none =>
          if blk.state then
            let placed := blk.addHex origin
            match acc.1.getBlock placed.toHex with
            | none => (acc.1, some "Block out of grid when adding")
            | some target =>
              if target.state then (acc.1, some "Cannot add into existing block")
              else (acc.1.setBlock placed.toHex placed, none)
          else acc) (e0, err)).1.blocks.map coordsOf)
        = e0.blocks.map coordsOf by
    exact h _ e none
  intro l
  induction l with
  | nil => intro e0 err; rfl
  | cons blk t ih =>
    intro e0 err
    rw [List.foldl_cons]
    cases err with
    | some s => exact ih e0 (some s)
    | none =>
      by_cases hstate : blk.state
      · simp only [hstate, if_true]
        cases hg : e0.getBlock (blk.addHex origin).toHex with
        | none => exact ih e0 _
        | some target =>
          by_cases hts : target.state
          · simp only [hts, if_true]
            exact ih e0 _
          · simp only [hts, if_false]
            rw [ih]
            exact HexEngine.setBlock_coords e0 _ _ rfl rfl
      · simp only [hstate, if_false]
        exact ih e0 none

theorem HexEngine.reset_coords (e : HexEngine) :
    (e.reset).blocks.map coordsOf = e.blocks.map coordsOf := by
  unfold HexEngine.reset
  rw [List.map_map]
  rfl

/-- C3: a fresh board of radius r ≥ 1 holds exactly 1 + 3r(r−1) blocks, one
per valid line coordinate, stored strictly ascending by (lineI, lineK); and
that sort order is preserved by every mutating operation: `add` (place),
`eliminate`, `set_state` and `reset`. -/
theorem board_construction_invariants (r : Nat) (hr : 1 ≤ r) :
    (HexEngine.init r).blocks.length = 1 + 3 * r * (r - 1) ∧
      sortedCoords (HexEngine.init r).blocks ∧
      (∀ i k : Int, validLine r i k →
        ∃ blk ∈ (HexEngine.init r).blocks, blk.lineI = i ∧ blk.lineK = k) ∧
      (∀ blk ∈ (HexEngine.init r).blocks, validLine r blk.lineI blk.lineK) ∧
      (∀ (e : HexEngine) (h : Hex) (st : Bool),
        sortedCoords e.blocks → sortedCoords (e.setState h st).blocks) ∧
      (∀ (e : HexEngine) (origin : Hex) (p : Piece),
        sortedCoords e.blocks → sortedCoords ((e.addRun origin p).1).blocks) ∧
      (∀ e : HexEngine, sortedCoords e.blocks → sortedCoords (e.eliminate).1.blocks) ∧
      (∀ e : HexEngine, sortedCoords e.blocks → sortedCoords (e.reset).blocks) := by
  refine ⟨init_length r hr, HexEngine.init_sorted r, HexEngine.init_mem r,
    fun blk hm => (HexEngine.init_blocks_wf r blk hm).2, ?_, ?_, ?_, ?_⟩
  · intro e h st hs
    unfold sortedCoords at hs ⊢
    rw [HexEngine.setState_coords]
    exact hs
  · intro e origin p hs
    unfold sortedCoords at hs ⊢
    rw [HexEngine.addRun_coords]
    exact hs
  · intro e hs
    unfold sortedCoords at hs ⊢
    rw [HexEngine.eliminate_coords]
    exact hs
  · intro e hs
    unfold sortedCoords at hs ⊢
    rw [HexEngine.reset_coords]
    exact hs

/-- C3 witness at radius 2. -/
theorem board_construction_invariants_witness :
    1 ≤ 2 ∧ (HexEngine.init 2).blocks.length = 1 + 3 * 2 * (2 - 1) :=
  ⟨by norm_num, (board_construction_invariants 2 (by norm_num)).1⟩

/-- C4 witness: a well-formed radius-1 board (one empty cell), a single-cell
piece placed at the out-of-board origin (1, 1): `check_add` is false and the
translated cell indeed lies outside the board. -/
theorem check_add_iff_witness :
    (HexEngine.init 1).WF ∧
      ((HexEngine.init 1).checkAdd (Hex.hexAt 1 1) (Piece.buildFromBits 8 1) = false ↔
        ∃ blk ∈ (Piece.buildFromBits 8 1).blocksList, blk.state = true ∧
          (¬ targetExists (HexEngine.init 1) 1 1 blk ∨
            targetOccupied (HexEngine.init 1) 1 1 blk)) := by
  exact ⟨HexEngine.init_wf 1, check_add_iff (HexEngine.init 1) (HexEngine.init_wf 1) 1 1 _⟩

/-! ### C6: the selection algorithms -/

theorem enum_elem_spec {α : Type} [Inhabited α] (l : List α) :
    ∀ pr ∈ l.enum, pr.1 < l.length ∧ l.getD pr.1 default = pr.2 := by
  intro pr hpr
  rw [List.mem_enum_iff_getElem?] at hpr
  have hlt : pr.1 < l.length := by
    by_contra hge
    rw [List.getElem?_eq_none (by omega)] at hpr
    exact absurd hpr (by simp)
  refine ⟨hlt, ?_⟩
  rw [List.getD_eq_getElem _ _ hlt]
  rw [List.getElem?_eq_getElem hlt] at hpr
  simpa using hpr

theorem scan_fold_mem {α : Type} (engine : HexEngine) (queue : List Piece)
    (score : Nat → Piece → Hex → α) :
    ∀ (l : List (Nat × Piece)) (st : List Nat × List (Nat × Hex × α)),
      (∀ pr ∈ l, pr.1 < queue.length ∧ queue.getD pr.1 default = pr.2) →
      (∀ o ∈ st.2, o.1 < queue.length ∧
        o.2.1 ∈ engine.checkPositions (queue.getD o.1 default)) →
      ∀ o ∈ (l.foldl (fun (st : List Nat × List (Nat × Hex × α)) pi =>
          let key := pi.2.toByte
          if key ∈ st.1 then st
          else (st.1 ++ [key],
            st.2 ++ (engine.checkPositions pi.2).map
              (fun c => (pi.1, c, score pi.1 pi.2 c)))) st).2,
        o.1 < queue.length ∧ o.2.1 ∈ engine.checkPositions (queue.getD o.1 default) := by
  intro l
  induction l with
  | nil => intro st hl hst o ho; exact hst o ho
  | cons pr t ih =>
    intro st hl hst o ho
    rw [List.foldl_cons] at ho
    refine ih _ (fun x hx => hl x (by simp [hx])) ?_ o ho
    by_cases hk : pr.2.toByte ∈ st.1
    · simpa [hk] using hst
    · simp only [hk, if_false]
      intro x hx
      rw [List.mem_append] at hx
      rcases hx with hx | hx
      · exact hst x hx
      · rw [List.mem_map] at hx
        obtain ⟨c, hc, rfl⟩ := hx
        obtain ⟨hlt, hget⟩ := hl pr (by simp)
        exact ⟨hlt, by rw [hget]; exact hc⟩

theorem scanOptions_mem {α : Type} (engine : HexEngine) (queue : List Piece)
    (score : Nat → Piece → Hex → α) :
    ∀ o ∈ scanOptions engine queue score,
      o.1 < queue.length ∧ o.2.1 ∈ engine.checkPositions (queue.getD o.1 default) := by
  intro o ho
  exact scan_fold_mem engine queue score queue.enum ([], [])
    (enum_elem_spec queue) (by simp) o ho

theorem scan_fold_empty {α : Type} (engine : HexEngine) (queue : List Piece)
    (score : Nat → Piece → Hex → α) :
    ∀ (l : List (Nat × Piece)) (st : List Nat × List (Nat × Hex × α)),
      (∀ pr ∈ l, engine.checkPositions pr.2 = []) →
      st.2 = [] →
      (l.foldl (fun (st : List Nat × List (Nat × Hex × α)) pi =>
          let key := pi.2.toByte
          if key ∈ st.1 then st
          else (st.1 ++ [key],
            st.2 ++ (engine.checkPositions pi.2).map
              (fun c => (pi.1, c, score pi.1 pi.2 c)))) st).2 = [] := by
  intro l
  induction l with
  | nil => intro st _ hst; exact hst
  | cons pr t ih =>
    intro st hl hst
    rw [List.foldl_cons]
    refine ih _ (fun x hx => hl x (by simp [hx])) ?_
    by_cases hk : pr.2.toByte ∈ st.1
    · simpa [hk] using hst
    · simp only [hk, if_false]
      rw [hl pr (by simp)]
      simpa using hst

theorem foldl_pick_mem {α : Type} [LinearOrder α] (rest : List (Nat × Hex × α)) :
    ∀ best, (rest.foldl (fun b x => if b.2.2 < x.2.2 then x else b) best) ∈ best :: rest := by
  induction rest with
  | nil => intro best; simp
  | cons x t ih =>
    intro best
    rw [List.foldl_cons]
    have := ih (if best.2.2 < x.2.2 then x else best)
    rw [List.mem_cons] at this
    rcases this with heq | hmem
    · rw [heq]
      split
      · simp
      · simp
    · simp [hmem]

theorem pickBest_mem {α : Type} [LinearOrder α] (l : List (Nat × Hex × α)) (hne : l ≠ []) :
    ∃ m ∈ l, pickBest l = (m.1, m.2.1) := by
  match l with
  | [] => exact absurd rfl hne
  | o :: rest =>
    refine ⟨_, foldl_pick_mem rest o, ?_⟩
    unfold pickBest
    rfl

theorem algo_ok_mem {α : Type} [LinearOrder α] (engine : HexEngine) (queue : List Piece)
    (score : Nat → Piece → Hex → α) (i : Nat) (c : Hex)
    (h : (if (scanOptions engine queue score).isEmpty then
        (Except.error "No valid options found" : Except String (Nat × Hex))
      else .ok (pickBest (scanOptions engine queue score))) = .ok (i, c)) :
    i < queue.length ∧ c ∈ engine.checkPositions (queue.getD i default) := by
  split at h
  · exact absurd h (by simp)
  · rename_i hcond
    have hne : scanOptions engine queue score ≠ [] := fun hnil => hcond (by rw [hnil]; rfl)
    obtain ⟨m, hm, hpick⟩ := pickBest_mem _ hne
    rw [hpick] at h
    simp only [Except.ok.injEq, Prod.mk.injEq] at h
    obtain ⟨hi, hc⟩ := h
    subst hi
    subst hc
    exact scanOptions_mem engine queue score m hm

/-- C6: `nrsearch` and `nrminimax` only return pairs `(index, origin)` with
the index inside the original queue and the origin a member of
`check_positions` of the piece at that index (`int(piece)`, `len(piece)`,
`add_piece` and `radius` are modelled from the spec, see `scanOptions`,
`nrsearch`, `HexEngine.addPiece`); on an empty queue, or when no piece in
the queue has a legal origin, both raise instead. -/
theorem algos_return_legal (engine : HexEngine) (queue : List Piece) :
    (∀ i c, nrsearch engine queue = .ok (i, c) →
      i < queue.length ∧ c ∈ engine.checkPositions (queue.getD i default)) ∧
    (∀ i c, nrminimax engine queue = .ok (i, c) →
      i < queue.length ∧ c ∈ engine.checkPositions (queue.getD i default)) ∧
    ((queue = [] ∨ ∀ p ∈ queue, engine.checkPositions p = []) →
      nrsearch engine queue = .error "No valid options found" ∧
      nrminimax engine queue = .error "No valid options found") := by
  have hempty : ∀ {α : Type} (score : Nat → Piece → Hex → α),
      (queue = [] ∨ ∀ p ∈ queue, engine.checkPositions p = []) →
      scanOptions engine queue score = [] := by
    intro α score hemp
    rcases hemp with rfl | hall
    · rfl
    · refine scan_fold_empty engine queue score queue.enum ([], []) ?_ rfl
      intro pr hpr
      obtain ⟨hlt, hget⟩ := enum_elem_spec queue pr hpr
      refine hall pr.2 ?_
      rw [← hget, List.getD_eq_getElem _ _ hlt]
      exact List.getElem_mem hlt
  refine ⟨?_, ?_, ?_⟩
  · intro i c h
    exact algo_ok_mem engine queue _ i c (by simpa only [nrsearch] using h)
  · intro i c h
    exact algo_ok_mem engine queue _ i c (by simpa only [nrminimax] using h)
  · intro hemp
    constructor
    · simp only [nrsearch, hempty _ hemp]
      rfl
    · simp only [nrminimax, hempty _ hemp]
      rfl

/-- C6 witness: both algorithms raise on the empty queue. -/
theorem algos_return_legal_witness :
    (([] : List Piece) = [] ∨ ∀ p ∈ ([] : List Piece),
        (HexEngine.init 2).checkPositions p = []) ∧
      nrsearch (HexEngine.init 2) [] = .error "No valid options found" ∧
      nrminimax (HexEngine.init 2) [] = .error "No valid options found" :=
  ⟨Or.inl rfl, (algos_return_legal (HexEngine.init 2) []).2.2 (Or.inl rfl)⟩
